import Mathlib

/-!
# libchildenv — verification of the spec against `src/libchildenv.c`

The library interposes the exec family and rewrites the child environment
according to the comma-separated rule string in `CHILD_ENV_RULES`.

C strings are modelled as `List Char` (`CStr`); the terminating NUL is the
end of the list (C strings carry no interior NUL, so this is faithful).
A `char **` environment array is a `List CStr`, and a possibly-NULL array
pointer is an `Option (List CStr)` (`none` = NULL).

Two models of `create_child_environment` are developed:
* a pure model (`create_child_environment`) of the contents it computes when
  every allocation succeeds, with the NULL-dereference fault made explicit;
* a heap model (`create_child_environment_heap`) that tracks every string
  allocation, write and free against an allocation oracle, used for the
  frame/no-mutation and allocation-failure properties.

The exec wrappers are modelled as functions producing an event trace
(builder call, genuine-implementation call, ambient `environ` assignment,
release of the rewritten environment), a final outcome and the final errno.
-/

set_option maxRecDepth 4000

namespace ChildEnv

/-- A C string: the characters before the terminating NUL. -/
abbrev CStr := List Char

/-- A NULL-terminated `char **` array, by its contents. -/
abbrev EnvArr := List CStr

/-- Undefined behaviour encountered by the C code: dereferencing a NULL
`envp` array pointer, or reading through an invalid string pointer. -/
inductive Fault where
  | nullDeref
  | invalidRead
  deriving DecidableEq, Repr

/-- Models `strchr(s, c)`: index of the first occurrence of `c`, if any. -/
def strchrIdx : CStr → Char → Option Nat
  | [], _ => none
  | c :: cs, ch => if c = ch then some 0 else (strchrIdx cs ch).map (· + 1)

/-- Models `strncmp(a, b, n) == 0`: the first `n` characters agree, where
running off the end of either list is the NUL terminator. -/
def strncmpEq : CStr → CStr → Nat → Bool
  | _, _, 0 => true
  | [], [], _ + 1 => true
  | [], _ :: _, _ + 1 => false
  | _ :: _, [], _ + 1 => false
  | c :: a, d :: b, n + 1 => c = d && strncmpEq a b n

/-- A parsed rule, `src/libchildenv.c:66-70`: `name` and `value` point at
pieces of the scratch copy of the rule string; `value = none` is an unset
rule.  `applied` is the flag written (but never read) by the copy loop. -/
structure Rule where
  name : CStr
  value : Option CStr
  applied : Bool
  deriving DecidableEq, Repr

/-- Models the sequence of tokens produced by `strsep(&p, ",")`
(`src/libchildenv.c:81`): split at every separator, keeping empty tokens. -/
def splitOnChar (sep : Char) : CStr → List CStr
  | [] => [[]]
  | c :: cs =>
    match splitOnChar sep cs with
    | [] => if c = sep then [[], []] else [[c]]
    | t :: ts => if c = sep then [] :: t :: ts else (c :: t) :: ts

/-- `max_rules`, `src/libchildenv.c:58-64`: 0 for the empty rule string,
otherwise one more than the number of commas. -/
def max_rules (s : CStr) : Nat :=
  if s = [] then 0 else 1 + s.count ','

/-- One iteration of the parse loop body, `src/libchildenv.c:84-94`:
the first `=` (replaced by NUL in the scratch buffer) divides name from
value; a token without `=` is an unset rule. -/
def splitRuleToken (t : CStr) : Rule :=
  match strchrIdx t '=' with
  | some i => { name := t.take i, value := some (t.drop (i + 1)), applied := false }
  | none => { name := t, value := none, applied := false }

/-- The parse loop, `src/libchildenv.c:78-95`: consume the `strsep` tokens
while `rule_count < max_rules`; empty tokens are skipped (`continue`) and do
not advance `rule_count`. -/
def parseTokens : List CStr → Nat → Nat → List Rule
  | [], _, _ => []
  | t :: ts, cnt, maxr =>
    if cnt < maxr then
      if t = [] then parseTokens ts cnt maxr
      else splitRuleToken t :: parseTokens ts (cnt + 1) maxr
    else []

/-- Rule parsing of the full rule-source string (`src/libchildenv.c:55-95`,
on the scratch copy of `CHILD_ENV_RULES`). -/
def parse_rules (s : CStr) : List Rule :=
  parseTokens (splitOnChar ',' s) 0 (max_rules s)

/-- `name_len`, `src/libchildenv.c:112-113`: offset of the first `=` of the
entry, or its whole length when it has none. -/
def varNameLen (var : CStr) : Nat :=
  match strchrIdx var '=' with
  | some i => i
  | none => var.length

/-- The match test of the copy loop, `src/libchildenv.c:117`:
`strncmp(var, rules[i].name, name_len) == 0 && rules[i].name[name_len] == '\0'`.
For NUL-free strings the second conjunct says the rule name has exactly
`name_len` characters. -/
def ruleMatchesVar (var : CStr) (r : Rule) : Bool :=
  strncmpEq var r.name (varNameLen var) && r.name.length == varNameLen var

/-- The inner scan of the copy loop, `src/libchildenv.c:116-122`: first
matching rule wins (`break`); its `applied` flag is set. -/
def scanRules (var : CStr) : List Rule → Bool × List Rule
  | [] => (false, [])
  | r :: rs =>
    if ruleMatchesVar var r then (true, { r with applied := true } :: rs)
    else
      let p := scanRules var rs
      (p.1, r :: p.2)

/-- The copy loop, `src/libchildenv.c:110-132` (allocation-free view):
entries not matched by any rule are copied (here: kept) in order; the
threaded rule list records the `applied` updates. -/
def copyLoop (rules : List Rule) : List CStr → List CStr × List Rule
  | [] => ([], rules)
  | v :: vs =>
    match scanRules v rules with
    | (true, rules') => copyLoop rules' vs
    | (false, rules') =>
      let p := copyLoop rules' vs
      (v :: p.1, p.2)

/-- The append loop, `src/libchildenv.c:134-147`: every rule with a value
contributes `name=value` (`snprintf(new_var, len, "%s=%s", ...)`), in rule
order, unconditionally. -/
def appendLoop : List Rule → List CStr
  | [] => []
  | r :: rs =>
    match r.value with
    | some v => (r.name ++ '=' :: v) :: appendLoop rs
    | none => appendLoop rs

/-- Pure model of `create_child_environment` (`src/libchildenv.c:34-160`)
under the assumption that every allocation succeeds.  `rulesSrc` is the
result of `getenv("CHILD_ENV_RULES")` (`none` = unset), `envp` the original
environment array (`none` = NULL pointer).  When `envp` is NULL the code
takes the defensive-copy branch and executes
`for (char *const *e = envp; *e != NULL; ++e)` (line 38), dereferencing the
NULL pointer: this is the explicit `Fault.nullDeref`. -/
def create_child_environment (rulesSrc : Option CStr) (envp : Option EnvArr) :
    Except Fault EnvArr :=
  match rulesSrc, envp with
  | _, none => .error .nullDeref
  | none, some l => .ok l
  | some rs, some l =>
    let rules := parse_rules rs
    let p := copyLoop rules l
    .ok (p.1 ++ appendLoop p.2)

/-! ## Spec-side definitions (from the spec's words, for refinement claims) -/

/-- Spec §3: the name of an environment entry is the substring before the
first `=` (the whole entry when it has none). -/
def specEntryName (v : CStr) : CStr := v.takeWhile (· ≠ '=')

/-- Spec §3/§4.2 step 3: every original entry whose name matches no rule
name is copied unchanged, preserving relative order. -/
def specCopied (rules : List Rule) (envp : EnvArr) : EnvArr :=
  envp.filter (fun v => !(rules.any (fun r => r.name == specEntryName v)))

/-- Spec §4.2 step 4: every set/overwrite rule unconditionally contributes
one entry `name=value`, in rule parse order. -/
def specAppended (rules : List Rule) : EnvArr :=
  rules.filterMap (fun r => r.value.map (fun val => r.name ++ '=' :: val))

/-- Spec §4.1: an empty token is skipped; otherwise the first `=` (if any)
divides name from value, and a token with no `=` is an unset rule for the
whole token as name. -/
def specToken (t : CStr) : Option Rule :=
  if t = [] then none
  else if '=' ∈ t then
    some { name := t.takeWhile (· ≠ '='), value := some ((t.dropWhile (· ≠ '=')).tail),
           applied := false }
  else some { name := t, value := none, applied := false }

/-- Spec §4.1: parsing splits on `,` and turns each token into a rule, in
left-to-right order. -/
def specParse (s : CStr) : List Rule := (splitOnChar ',' s).filterMap specToken

/-- The (name, value) content of a rule, forgetting the dead `applied` flag. -/
def Rule.core (r : Rule) : CStr × Option CStr := (r.name, r.value)

/-! ## Lemmas about `strchr`, `strncmp` and entry names -/

theorem strchrIdx_some_lt : ∀ {t : CStr} {ch : Char} {i : Nat},
    strchrIdx t ch = some i → i < t.length := by
  intro t
  induction t with
  | nil => intro ch i h; simp [strchrIdx] at h
  | cons c cs ih =>
    intro ch i h
    simp only [strchrIdx] at h
    by_cases hc : c = ch
    · simp only [if_pos hc, Option.some.injEq] at h
      subst h
      simp
    · simp only [if_neg hc, Option.map_eq_some'] at h
      obtain ⟨j, hj, rfl⟩ := h
      have := ih hj
      simp only [List.length_cons]
      omega

theorem strchrIdx_some_mem : ∀ {t : CStr} {ch : Char} {i : Nat},
    strchrIdx t ch = some i → ch ∈ t := by
  intro t
  induction t with
  | nil => intro ch i h; simp [strchrIdx] at h
  | cons c cs ih =>
    intro ch i h
    simp only [strchrIdx] at h
    by_cases hc : c = ch
    · simp [hc]
    · simp only [if_neg hc, Option.map_eq_some'] at h
      obtain ⟨j, hj, rfl⟩ := h
      exact List.mem_cons_of_mem c (ih hj)

theorem strchrIdx_none : ∀ {t : CStr} {ch : Char},
    strchrIdx t ch = none → ch ∉ t := by
  intro t
  induction t with
  | nil => intro ch _; simp
  | cons c cs ih =>
    intro ch h
    simp only [strchrIdx] at h
    by_cases hc : c = ch
    · simp [hc] at h
    · simp only [if_neg hc, Option.map_eq_none'] at h
      simp only [List.mem_cons, not_or]
      exact ⟨fun hh => hc hh.symm, ih h⟩

theorem varNameLen_cons_ne {c : Char} (cs : CStr) (hc : ¬ c = '=') :
    varNameLen (c :: cs) = varNameLen cs + 1 := by
  cases h : strchrIdx cs '=' <;> simp [varNameLen, strchrIdx, hc, h]

theorem varNameLen_cons_eq (cs : CStr) : varNameLen ('=' :: cs) = 0 := by
  simp [varNameLen, strchrIdx]

theorem varNameLen_le (var : CStr) : varNameLen var ≤ var.length := by
  unfold varNameLen
  cases h : strchrIdx var '=' with
  | none => exact Nat.le_refl _
  | some i => exact Nat.le_of_lt (strchrIdx_some_lt h)

theorem take_varNameLen : ∀ (var : CStr), var.take (varNameLen var) = specEntryName var
  | [] => rfl
  | c :: cs => by
    by_cases hc : c = '='
    · subst hc
      simp [varNameLen_cons_eq, specEntryName, List.takeWhile_cons]
    · rw [varNameLen_cons_ne cs hc, List.take_succ_cons]
      simp [specEntryName, List.takeWhile_cons, hc, take_varNameLen cs]

theorem strncmpEq_take : ∀ (a b : CStr) (n : Nat), n ≤ a.length →
    ((strncmpEq a b n = true ∧ b.length = n) ↔ b = a.take n)
  | a, b, 0, _ => by simp [strncmpEq, List.length_eq_zero]
  | [], _, n + 1, h => by simp at h
  | c :: a, [], n + 1, _ => by simp [strncmpEq]
  | c :: a, d :: b, n + 1, h => by
    have hn : n ≤ a.length := by
      simpa [Nat.succ_le_succ_iff] using h
    have ih := strncmpEq_take a b n hn
    simp only [strncmpEq, List.take_succ_cons, List.length_cons, Bool.and_eq_true,
      decide_eq_true_eq, List.cons.injEq, Nat.add_left_inj] at *
    constructor
    · rintro ⟨⟨hcd, hs⟩, hl⟩
      exact ⟨hcd.symm, ih.mp ⟨hs, hl⟩⟩
    · rintro ⟨rfl, hb⟩
      have := ih.mpr hb
      exact ⟨⟨rfl, this.1⟩, this.2⟩

theorem ruleMatchesVar_iff (var : CStr) (r : Rule) :
    ruleMatchesVar var r = true ↔ r.name = specEntryName var := by
  unfold ruleMatchesVar
  rw [Bool.and_eq_true, beq_iff_eq, ← take_varNameLen var]
  exact strncmpEq_take var r.name (varNameLen var) (varNameLen_le var)

theorem ruleMatchesVar_eq (var : CStr) (r : Rule) :
    ruleMatchesVar var r = (r.name == specEntryName var) := by
  by_cases h : r.name = specEntryName var
  · rw [(ruleMatchesVar_iff var r).mpr h]
    exact (beq_iff_eq.mpr h).symm
  · have h1 : ¬ ruleMatchesVar var r = true := fun hh => h ((ruleMatchesVar_iff var r).mp hh)
    rw [Bool.not_eq_true] at h1
    rw [h1]
    exact (beq_eq_false_iff_ne.mpr h).symm

/-! ## Lemmas about the copy and append loops -/

theorem scanRules_fst (var : CStr) : ∀ (rules : List Rule),
    (scanRules var rules).1 = rules.any (fun r => ruleMatchesVar var r)
  | [] => rfl
  | r :: rs => by
    simp only [scanRules, List.any_cons]
    by_cases h : ruleMatchesVar var r = true
    · simp [h]
    · rw [Bool.not_eq_true] at h
      simp [h, scanRules_fst var rs]

theorem scanRules_core (var : CStr) : ∀ (rules : List Rule),
    ((scanRules var rules).2).map Rule.core = rules.map Rule.core
  | [] => rfl
  | r :: rs => by
    simp only [scanRules]
    by_cases h : ruleMatchesVar var r = true
    · simp [h, Rule.core]
    · rw [Bool.not_eq_true] at h
      simp [h, scanRules_core var rs]

theorem any_matches_congr (var : CStr) : ∀ (rs rs' : List Rule),
    rs.map Rule.core = rs'.map Rule.core →
    rs.any (fun r => ruleMatchesVar var r) = rs'.any (fun r => ruleMatchesVar var r)
  | [], [], _ => rfl
  | [], _ :: _, h => by simp at h
  | _ :: _, [], h => by simp at h
  | r :: rs, r' :: rs', h => by
    simp only [List.map_cons, List.cons.injEq] at h
    have hname : r.name = r'.name := congrArg Prod.fst h.1
    have hm : ruleMatchesVar var r = ruleMatchesVar var r' := by
      unfold ruleMatchesVar; rw [hname]
    simp only [List.any_cons, hm, any_matches_congr var rs rs' h.2]

theorem appendLoop_congr : ∀ (rs rs' : List Rule),
    rs.map Rule.core = rs'.map Rule.core → appendLoop rs = appendLoop rs'
  | [], [], _ => rfl
  | [], _ :: _, h => by simp at h
  | _ :: _, [], h => by simp at h
  | r :: rs, r' :: rs', h => by
    simp only [List.map_cons, List.cons.injEq] at h
    have hname : r.name = r'.name := congrArg Prod.fst h.1
    have hval : r.value = r'.value := congrArg Prod.snd h.1
    simp only [appendLoop, hname, hval, appendLoop_congr rs rs' h.2]

theorem filter_matches_congr (env : EnvArr) {rs rs' : List Rule}
    (h : rs.map Rule.core = rs'.map Rule.core) :
    env.filter (fun v => !(rs.any (fun r => ruleMatchesVar v r))) =
      env.filter (fun v => !(rs'.any (fun r => ruleMatchesVar v r))) := by
  have hf : (fun v => !(rs.any (fun r => ruleMatchesVar v r))) =
      (fun v => !(rs'.any (fun r => ruleMatchesVar v r))) := by
    funext v; rw [any_matches_congr v rs rs' h]
  rw [hf]

theorem copyLoop_spec : ∀ (env : EnvArr) (rules : List Rule),
    (copyLoop rules env).1 =
        env.filter (fun v => !(rules.any (fun r => ruleMatchesVar v r))) ∧
      ((copyLoop rules env).2).map Rule.core = rules.map Rule.core
  | [], rules => ⟨rfl, rfl⟩
  | v :: vs, rules => by
    have hs1 := scanRules_fst v rules
    have hs2 := scanRules_core v rules
    cases hscan : scanRules v rules with
    | mk b rules' =>
      rw [hscan] at hs1 hs2
      have ih := copyLoop_spec vs rules'
      cases b with
      | true =>
        simp only [copyLoop, hscan, List.filter_cons, ← hs1, Bool.not_true,
          Bool.false_eq_true, if_false]
        exact ⟨ih.1.trans (filter_matches_congr vs hs2), ih.2.trans hs2⟩
      | false =>
        simp only [copyLoop, hscan, List.filter_cons, ← hs1, Bool.not_false, if_true]
        exact ⟨by rw [ih.1, filter_matches_congr vs hs2], ih.2.trans hs2⟩

theorem specCopied_eq (rules : List Rule) (env : EnvArr) :
    env.filter (fun v => !(rules.any (fun r => ruleMatchesVar v r))) =
      specCopied rules env := by
  unfold specCopied
  have hf : (fun v => !(rules.any (fun r => ruleMatchesVar v r))) =
      (fun v => !(rules.any (fun r => r.name == specEntryName v))) := by
    funext v
    have : (fun r => ruleMatchesVar v r) = (fun r : Rule => r.name == specEntryName v) := by
      funext r; exact ruleMatchesVar_eq v r
    rw [this]
  rw [hf]

theorem appendLoop_eq : ∀ (rules : List Rule), appendLoop rules = specAppended rules
  | [] => rfl
  | r :: rs => by
    cases hv : r.value <;>
      simp [appendLoop, specAppended, hv, appendLoop_eq rs, List.filterMap_cons]

/-- The full-build branch of `create_child_environment` computes exactly the
spec's copied-then-appended environment. -/
theorem create_spec_general (rs : CStr) (env : EnvArr) :
    create_child_environment (some rs) (some env) =
      .ok (specCopied (parse_rules rs) env ++ specAppended (parse_rules rs)) := by
  have h := copyLoop_spec env (parse_rules rs)
  show Except.ok ((copyLoop (parse_rules rs) env).1 ++
      appendLoop (copyLoop (parse_rules rs) env).2) = _
  rw [h.1, specCopied_eq, appendLoop_congr _ _ h.2, appendLoop_eq]

/-! ## Lemmas about rule parsing -/

theorem splitOnChar_ne_nil (sep : Char) : ∀ (s : CStr), splitOnChar sep s ≠ []
  | [] => by simp [splitOnChar]
  | c :: cs => by
    simp only [splitOnChar]
    cases h : splitOnChar sep cs <;> by_cases hc : c = sep <;> simp [hc]

theorem splitOnChar_length (sep : Char) : ∀ (s : CStr),
    (splitOnChar sep s).length = s.count sep + 1
  | [] => rfl
  | c :: cs => by
    have hne := splitOnChar_ne_nil sep cs
    have hlen := splitOnChar_length sep cs
    simp only [splitOnChar]
    cases h : splitOnChar sep cs with
    | nil => exact absurd h hne
    | cons t ts =>
      rw [h] at hlen
      by_cases hc : c = sep
      · simp [hc, List.count_cons] at *
        omega
      · simp [hc, List.count_cons] at *
        omega

theorem strchrIdx_take {t : CStr} {i : Nat} (h : strchrIdx t '=' = some i) :
    t.take i = t.takeWhile (· ≠ '=') := by
  have : varNameLen t = i := by unfold varNameLen; rw [h]
  rw [← this, take_varNameLen t, specEntryName]

theorem strchrIdx_drop : ∀ {t : CStr} {i : Nat}, strchrIdx t '=' = some i →
    t.drop (i + 1) = (t.dropWhile (· ≠ '=')).tail := by
  intro t
  induction t with
  | nil => intro i h; simp [strchrIdx] at h
  | cons c cs ih =>
    intro i h
    simp only [strchrIdx] at h
    by_cases hc : c = '='
    · simp only [if_pos hc, Option.some.injEq] at h
      subst h
      simp [List.dropWhile_cons, hc]
    · simp only [if_neg hc, Option.map_eq_some'] at h
      obtain ⟨j, hj, rfl⟩ := h
      simp [List.dropWhile_cons, hc, List.drop_succ_cons, ih hj]

theorem splitRuleToken_eq_specToken {t : CStr} (ht : t ≠ []) :
    some (splitRuleToken t) = specToken t := by
  cases h : strchrIdx t '=' with
  | none =>
    simp only [splitRuleToken, specToken, h, if_neg ht, if_neg (strchrIdx_none h)]
  | some i =>
    simp only [splitRuleToken, specToken, h, if_neg ht, if_pos (strchrIdx_some_mem h)]
    rw [strchrIdx_take h, strchrIdx_drop h]

/-- The number of non-empty tokens in a token list (proof device for the
`rule_count < max_rules` guard). -/
def numNonEmpty : List CStr → Nat
  | [] => 0
  | t :: ts => (if t = [] then 0 else 1) + numNonEmpty ts

theorem numNonEmpty_le_length : ∀ (ts : List CStr), numNonEmpty ts ≤ ts.length
  | [] => Nat.le_refl 0
  | t :: ts => by
    simp only [numNonEmpty, List.length_cons]
    have := numNonEmpty_le_length ts
    by_cases he : t = [] <;> simp [he] <;> omega

theorem filterMap_specToken_nil : ∀ {ts : List CStr},
    numNonEmpty ts = 0 → ts.filterMap specToken = [] := by
  intro ts
  induction ts with
  | nil => intro _; rfl
  | cons t ts ih =>
    intro h
    simp only [numNonEmpty] at h
    by_cases he : t = []
    · subst he
      rw [if_pos rfl] at h
      rw [List.filterMap_cons, show specToken [] = none from rfl]
      exact ih (by omega)
    · rw [if_neg he] at h
      omega

theorem parseTokens_filterMap : ∀ (ts : List CStr) (cnt maxr : Nat),
    cnt + numNonEmpty ts ≤ maxr →
    parseTokens ts cnt maxr = ts.filterMap specToken
  | [], _, _, _ => rfl
  | t :: ts, cnt, maxr, h => by
    simp only [numNonEmpty] at h
    by_cases hlt : cnt < maxr
    · by_cases he : t = []
      · subst he
        rw [if_pos rfl] at h
        simp only [parseTokens, if_pos hlt, if_pos rfl]
        rw [List.filterMap_cons, show specToken [] = none from rfl]
        exact parseTokens_filterMap ts cnt maxr (by omega)
      · rw [if_neg he] at h
        simp only [parseTokens, if_pos hlt, if_neg he]
        rw [List.filterMap_cons, ← splitRuleToken_eq_specToken he]
        rw [parseTokens_filterMap ts (cnt + 1) maxr (by omega)]
    · by_cases he : t = []
      · subst he
        rw [if_pos rfl] at h
        simp only [parseTokens, if_neg hlt]
        rw [List.filterMap_cons, show specToken [] = none from rfl]
        exact (filterMap_specToken_nil (by omega)).symm
      · rw [if_neg he] at h
        omega
    termination_by ts => ts.length

theorem parse_rules_eq_specParse (s : CStr) : parse_rules s = specParse s := by
  unfold parse_rules specParse
  by_cases hs : s = []
  · subst hs; rfl
  · apply parseTokens_filterMap
    rw [max_rules, if_neg hs, Nat.zero_add]
    calc numNonEmpty (splitOnChar ',' s)
        ≤ (splitOnChar ',' s).length := numNonEmpty_le_length _
      _ = s.count ',' + 1 := splitOnChar_length ',' s
      _ ≤ 1 + s.count ',' := by omega

/-! ## The exec interception layer (`src/libchildenv.c:173-314`)

Each wrapper is modelled as a function of the call's inputs, the result of
`create_child_environment` at its call site (`buildRes`; `none` = NULL), the
behaviour of the genuine implementation (`real`; `none` = the exec succeeded
and control never returns, `some (r, e)` = it returned `r` with errno `e`),
and the ambient state (the process-wide `environ` value and the entry
errno).  It produces the sequence of observable events, the outcome, the
final errno and the final ambient `environ`.  The lazily cached `dlsym`
resolution has no observable effect on a single call and is not modelled. -/

/-- `ENOMEM` (the conventional Linux value). -/
def ENOMEM : Int := 12

/-- Ambient process state read and written by the wrappers. -/
structure Wstate where
  environ : EnvArr
  errno : Int
  deriving DecidableEq, Repr

/-- Observable events of one intercepted call. -/
inductive Ev where
  /-- `create_child_environment` invoked on the given environment argument. -/
  | callBuild (envp : Option EnvArr)
  /-- The genuine implementation invoked (its argv, and its explicit
  environment argument when it has one). -/
  | callReal (path : CStr) (argv : List CStr) (envp : Option EnvArr)
  /-- Assignment to the ambient `environ`. -/
  | assignEnviron (e : EnvArr)
  /-- `free_child_environment` on the rewritten environment. -/
  | releaseEnv (e : EnvArr)
  deriving DecidableEq, Repr

/-- How an intercepted call ends. -/
inductive Outcome where
  /-- The process image was replaced; control never returns. -/
  | noReturn
  /-- The call returned `r` to the caller. -/
  | ret (r : Int)
  deriving DecidableEq, Repr

/-- The observable behaviour of one intercepted call. -/
structure Run where
  events : List Ev
  outcome : Outcome
  errno : Int
  environ : EnvArr
  deriving DecidableEq, Repr

/-- Does the run ever invoke the genuine implementation? -/
def Run.invokesReal (run : Run) : Bool :=
  run.events.any fun ev =>
    match ev with
    | .callReal _ _ _ => true
    | _ => false

/-- Does the run ever invoke `create_child_environment`? -/
def Run.invokesBuild (run : Run) : Bool :=
  run.events.any fun ev =>
    match ev with
    | .callBuild _ => true
    | _ => false

/-- `execve` wrapper, `src/libchildenv.c:175-188`: build the rewritten
environment from the explicit `envp`; on build failure set `errno = ENOMEM`
and return `-1` without calling the real `execve`; otherwise call it with
the rewritten environment and release that environment only if it returns. -/
def execveRun (pathname : CStr) (argv : List CStr) (envp : Option EnvArr)
    (buildRes : Option EnvArr) (real : Option (Int × Int)) (s : Wstate) : Run :=
  match buildRes with
  | none =>
    { events := [.callBuild envp], outcome := .ret (-1), errno := ENOMEM,
      environ := s.environ }
  | some newEnvp =>
    match real with
    | none =>
      { events := [.callBuild envp, .callReal pathname argv (some newEnvp)],
        outcome := .noReturn, errno := s.errno, environ := s.environ }
    | some (r, e) =>
      { events := [.callBuild envp, .callReal pathname argv (some newEnvp),
                   .releaseEnv newEnvp],
        outcome := .ret r, errno := e, environ := s.environ }

/-- `execvpe` wrapper, `src/libchildenv.c:190-203`: same shape as `execve`. -/
def execvpeRun (file : CStr) (argv : List CStr) (envp : Option EnvArr)
    (buildRes : Option EnvArr) (real : Option (Int × Int)) (s : Wstate) : Run :=
  match buildRes with
  | none =>
    { events := [.callBuild envp], outcome := .ret (-1), errno := ENOMEM,
      environ := s.environ }
  | some newEnvp =>
    match real with
    | none =>
      { events := [.callBuild envp, .callReal file argv (some newEnvp)],
        outcome := .noReturn, errno := s.errno, environ := s.environ }
    | some (r, e) =>
      { events := [.callBuild envp, .callReal file argv (some newEnvp),
                   .releaseEnv newEnvp],
        outcome := .ret r, errno := e, environ := s.environ }

/-- `execvp` wrapper, `src/libchildenv.c:205-221`: build from the ambient
`environ`; on success swap `environ` to the rewritten environment, call the
real `execvp` (which takes no environment argument), and if it returns
restore `environ` and only then release the rewritten environment. -/
def execvpRun (file : CStr) (argv : List CStr) (buildRes : Option EnvArr)
    (real : Option (Int × Int)) (s : Wstate) : Run :=
  match buildRes with
  | none =>
    { events := [.callBuild (some s.environ)], outcome := .ret (-1),
      errno := ENOMEM, environ := s.environ }
  | some newEnvp =>
    match real with
    | none =>
      { events := [.callBuild (some s.environ), .assignEnviron newEnvp,
                   .callReal file argv none],
        outcome := .noReturn, errno := s.errno, environ := newEnvp }
    | some (r, e) =>
      { events := [.callBuild (some s.environ), .assignEnviron newEnvp,
                   .callReal file argv none, .assignEnviron s.environ,
                   .releaseEnv newEnvp],
        outcome := .ret r, errno := e, environ := s.environ }

/-- `execv` wrapper, `src/libchildenv.c:223-239`: identical shape to
`execvp` with the real `execv`. -/
def execvRun (path : CStr) (argv : List CStr) (buildRes : Option EnvArr)
    (real : Option (Int × Int)) (s : Wstate) : Run :=
  match buildRes with
  | none =>
    { events := [.callBuild (some s.environ)], outcome := .ret (-1),
      errno := ENOMEM, environ := s.environ }
  | some newEnvp =>
    match real with
    | none =>
      { events := [.callBuild (some s.environ), .assignEnviron newEnvp,
                   .callReal path argv none],
        outcome := .noReturn, errno := s.errno, environ := newEnvp }
    | some (r, e) =>
      { events := [.callBuild (some s.environ), .assignEnviron newEnvp,
                   .callReal path argv none, .assignEnviron s.environ,
                   .releaseEnv newEnvp],
        outcome := .ret r, errno := e, environ := s.environ }

/-! ## The variadic adapter (`src/libchildenv.c:244-314`)

A `va_list` of C strings terminated by a NULL sentinel is modelled as the
`List CStr` of the arguments before the sentinel (a list element cannot be
the NULL sentinel, so the split is exact); for `execle` the argument after
the sentinel is the environment pointer, `Option EnvArr`.  `allocOk` is
whether the adapter's single `malloc` of the argv array succeeds. -/

/-- `build_argv_from_va_list`, `src/libchildenv.c:244-263`: on allocation
success the materialized array is `arg0` followed by the variadic arguments
up to the sentinel; on failure NULL.  Note the caller's `va_list` position:
the counting loop advances only the `va_copy` `args_counter`, and the fill
loop `for (i = 1; i < argc; i++)` consumes exactly `argc - 1` slots — the
arguments before the sentinel — so on success the caller's list is left
positioned at the NULL sentinel, which has not been consumed. -/
def build_argv_from_va_list (allocOk : Bool) (arg0 : CStr) (va : List CStr) :
    Option (List CStr) :=
  if allocOk then some (arg0 :: va) else none

/-- `execl` wrapper, `src/libchildenv.c:265-279`: materialize argv; if that
fails return `-1` with `errno = ENOMEM`; otherwise delegate to the `execv`
wrapper (the adapter then frees only its own argv array, with no observable
effect). -/
def execlRun (path : CStr) (arg : CStr) (va : List CStr) (allocOk : Bool)
    (buildRes : Option EnvArr) (real : Option (Int × Int)) (s : Wstate) : Run :=
  match build_argv_from_va_list allocOk arg va with
  | none =>
    { events := [], outcome := .ret (-1), errno := ENOMEM, environ := s.environ }
  | some argv => execvRun path argv buildRes real s

/-- `execlp` wrapper, `src/libchildenv.c:281-295`: like `execl`, delegating
to the `execvp` wrapper. -/
def execlpRun (file : CStr) (arg : CStr) (va : List CStr) (allocOk : Bool)
    (buildRes : Option EnvArr) (real : Option (Int × Int)) (s : Wstate) : Run :=
  match build_argv_from_va_list allocOk arg va with
  | none =>
    { events := [], outcome := .ret (-1), errno := ENOMEM, environ := s.environ }
  | some argv => execvpRun file argv buildRes real s

/-- `execle` wrapper, `src/libchildenv.c:297-314`.  `envp` is the
environment pointer the caller placed after the NULL sentinel of the
variadic list — which the code never reads: after
`build_argv_from_va_list` returns, the caller's `va_list` is still
positioned at the unconsumed NULL sentinel (see
`build_argv_from_va_list`), so the `va_arg(args, char *const *)` at line
303 reads the sentinel itself and yields a NULL environment pointer.  On
materialization success `execle` therefore delegates to the `execve`
wrapper with a NULL environment, not with `envp`.  (On materialization
failure the fill loop never ran, the stray `va_arg` reads the first
variadic slot to no observable effect, and the `!argv` check returns `-1`
with `errno = ENOMEM`.) -/
def execleRun (path : CStr) (arg : CStr) (va : List CStr) (envp : Option EnvArr)
    (allocOk : Bool) (buildRes : Option EnvArr) (real : Option (Int × Int))
    (s : Wstate) : Run :=
  match build_argv_from_va_list allocOk arg va with
  | none =>
    { events := [], outcome := .ret (-1), errno := ENOMEM, environ := s.environ }
  | some argv => execveRun path argv none buildRes real s

/-! ## Heap model of `create_child_environment`

String buffers live in a heap (`Ptr` = index; `none` = freed); every
`malloc`/`strdup`/`calloc` attempt consults an allocation oracle indexed by
an attempt counter, so every allocation-failure path of the C function is a
run of this model under some oracle.  The three pointer-array allocations
(`envp_copy`, `rules`, `new_envp`) consume an oracle slot but hold no
string, and freeing them has no effect on the string heap; the `Rule`
values stand for the name/value pointers into the scratch rule buffer. -/

/-- A pointer (heap index). -/
abbrev Ptr := Nat

/-- The NUL character. -/
def nulChar : Char := Char.ofNat 0

/-- A token after the parse body processed it: the first `=`, if any, was
overwritten with NUL (`src/libchildenv.c:84-86`). -/
def replaceFirstEq (t : CStr) : CStr :=
  match strchrIdx t '=' with
  | some i => t.take i ++ nulChar :: t.drop (i + 1)
  | none => t

/-- The scratch rule buffer after the parse loop: `strsep` overwrote every
`,` with NUL and the body overwrote each token's first `=` with NUL. -/
def scratchAfterParse (s : CStr) : CStr :=
  List.intercalate [nulChar] ((splitOnChar ',' s).map replaceFirstEq)

/-- A heap of C string buffers. -/
structure Heap where
  cells : List (Option CStr)
  deriving DecidableEq, Repr

/-- Read the string at `p` (`none`: freed or unallocated). -/
def Heap.read (h : Heap) (p : Ptr) : Option CStr := h.cells.getD p none

/-- Allocate a fresh buffer holding `s`. -/
def Heap.alloc (h : Heap) (s : CStr) : Heap × Ptr :=
  (⟨h.cells ++ [some s]⟩, h.cells.length)

/-- Overwrite the buffer at `p`. -/
def Heap.write (h : Heap) (p : Ptr) (s : CStr) : Heap :=
  ⟨h.cells.set p (some s)⟩

/-- Free the buffer at `p`. -/
def Heap.free (h : Heap) (p : Ptr) : Heap :=
  ⟨h.cells.set p none⟩

/-- Heap plus the allocation-attempt counter. -/
structure Mem where
  heap : Heap
  k : Nat
  deriving DecidableEq, Repr

/-- One allocation attempt carrying a string (`strdup`, or the
`malloc`+`snprintf` of an appended entry): succeeds iff the oracle allows
attempt `k`. -/
def Mem.tryAlloc (oracle : Nat → Bool) (m : Mem) (s : CStr) : Mem × Option Ptr :=
  if oracle m.k then
    ({ heap := (m.heap.alloc s).1, k := m.k + 1 }, some (m.heap.alloc s).2)
  else
    ({ m with k := m.k + 1 }, none)

/-- One allocation attempt of a pointer array (`envp_copy`, `rules`,
`new_envp`): consumes an oracle slot, holds no string cell. -/
def Mem.tryAllocArr (oracle : Nat → Bool) (m : Mem) : Mem × Bool :=
  ({ m with k := m.k + 1 }, oracle m.k)

/-- `free` of one string buffer. -/
def Mem.freeP (m : Mem) (p : Ptr) : Mem :=
  { m with heap := m.heap.free p }

/-- `free` of a sequence of string buffers, in order. -/
def Mem.freeAll (m : Mem) (ps : List Ptr) : Mem :=
  ps.foldl Mem.freeP m

/-- The defensive-copy loop, `src/libchildenv.c:43-50`: `strdup` each
original entry in order; on an allocation failure free the copies made so
far (and the array) and return NULL. -/
def defensiveLoop (oracle : Nat → Bool) : Mem → List Ptr → List Ptr →
    Except Fault (Mem × Option (List Ptr))
  | m, acc, [] => .ok (m, some acc)
  | m, acc, p :: ps =>
    match m.heap.read p with
    | none => .error .invalidRead
    | some s =>
      match m.tryAlloc oracle s with
      | (m', some q) => defensiveLoop oracle m' (acc ++ [q]) ps
      | (m', none) => .ok (m'.freeAll acc, none)

/-- The copy loop, `src/libchildenv.c:110-132`: read each original entry,
scan the rules (threading the `applied` flags), and `strdup` unmatched
entries into `new_envp`; an allocation failure sets `success = false` and
breaks. -/
def copyLoopH (oracle : Nat → Bool) : Mem → List Rule → List Ptr → List Ptr →
    Except Fault (Mem × List Rule × List Ptr × Bool)
  | m, rules, acc, [] => .ok (m, rules, acc, true)
  | m, rules, acc, p :: ps =>
    match m.heap.read p with
    | none => .error .invalidRead
    | some var =>
      match scanRules var rules with
      | (true, rules') => copyLoopH oracle m rules' acc ps
      | (false, rules') =>
        match m.tryAlloc oracle var with
        | (m', some q) => copyLoopH oracle m' rules' (acc ++ [q]) ps
        | (m', none) => .ok (m', rules', acc, false)

/-- The append loop, `src/libchildenv.c:134-147`: allocate `name=value` for
every set/overwrite rule, continuing the same `new_envp` index; an
allocation failure sets `success = false` and breaks without storing. -/
def appendLoopH (oracle : Nat → Bool) : Mem → List Ptr → List Rule →
    Mem × List Ptr × Bool
  | m, acc, [] => (m, acc, true)
  | m, acc, r :: rs =>
    match r.value with
    | none => appendLoopH oracle m acc rs
    | some v =>
      match m.tryAlloc oracle (r.name ++ '=' :: v) with
      | (m', some q) => appendLoopH oracle m' (acc ++ [q]) rs
      | (m', none) => (m', acc, false)

/-- Heap model of `create_child_environment` (`src/libchildenv.c:34-160`).
`rulesPtr` is the buffer holding `CHILD_ENV_RULES` (`none` = unset), `envp`
the array of original entry pointers (`none` = NULL array pointer, on which
the entry-counting loop dereferences NULL).  The result is the final memory
and the returned array (`none` = NULL on allocation failure). -/
def create_child_environment_heap (oracle : Nat → Bool) (m : Mem)
    (rulesPtr : Option Ptr) (envp : Option (List Ptr)) :
    Except Fault (Mem × Option (List Ptr)) :=
  match rulesPtr, envp with
  | _, none => .error .nullDeref
  | none, some ps =>
    let a := m.tryAllocArr oracle
    if a.2 then defensiveLoop oracle a.1 [] ps else .ok (a.1, none)
  | some rp, some ps =>
    match m.heap.read rp with
    | none => .error .invalidRead
    | some rs =>
      let t := m.tryAlloc oracle rs
      match t.2 with
      | none => .ok (t.1, none)
      | some scratch =>
        let a := t.1.tryAllocArr oracle
        if !a.2 then .ok (a.1.freeP scratch, none)
        else
          let m2 : Mem := { a.1 with heap := a.1.heap.write scratch (scratchAfterParse rs) }
          let rules := parse_rules rs
          let b := m2.tryAllocArr oracle
          if !b.2 then .ok (b.1.freeP scratch, none)
          else
            match copyLoopH oracle b.1 rules [] ps with
            | .error f => .error f
            | .ok out =>
              if out.2.2.2 then
                let r := appendLoopH oracle out.1 out.2.2.1 out.2.1
                let m5 := r.1.freeP scratch
                if r.2.2 then .ok (m5, some r.2.1)
                else .ok (m5.freeAll r.2.1, none)
              else
                .ok ((out.1.freeP scratch).freeAll out.2.2.1, none)

/-! ## Frame lemmas: the build touches no pre-existing buffer -/

/-- `m'` extends `m` without touching any cell below `n`. -/
def MemExt (n : Nat) (m m' : Mem) : Prop :=
  n ≤ m'.heap.cells.length ∧ ∀ p, p < n → m'.heap.cells.get? p = m.heap.cells.get? p

theorem MemExt.rfl {n : Nat} {m : Mem} (h : n ≤ m.heap.cells.length) : MemExt n m m :=
  ⟨h, fun _ _ => Eq.refl _⟩

theorem MemExt.trans {n : Nat} {m1 m2 m3 : Mem} (h12 : MemExt n m1 m2)
    (h23 : MemExt n m2 m3) : MemExt n m1 m3 :=
  ⟨h23.1, fun p hp => (h23.2 p hp).trans (h12.2 p hp)⟩

theorem tryAlloc_memExt (oracle : Nat → Bool) (m : Mem) (s : CStr) {n : Nat}
    (h : n ≤ m.heap.cells.length) :
    MemExt n m (m.tryAlloc oracle s).1 ∧
      (∀ q, (m.tryAlloc oracle s).2 = some q → n ≤ q) := by
  unfold Mem.tryAlloc
  by_cases ho : oracle m.k = true
  · simp only [if_pos ho]
    refine ⟨⟨?_, ?_⟩, ?_⟩
    · simp only [Heap.alloc, List.length_append, List.length_cons, List.length_nil]
      omega
    · intro p hp
      simp only [Heap.alloc]
      exact List.get?_append (by omega)
    · intro q hq
      simp only [Heap.alloc] at hq
      cases hq
      exact h
  · simp only [if_neg ho]
    exact ⟨MemExt.rfl h, fun q hq => by cases hq⟩

theorem tryAllocArr_memExt {oracle : Nat → Bool} {m : Mem} {n : Nat}
    (h : n ≤ m.heap.cells.length) : MemExt n m (m.tryAllocArr oracle).1 :=
  MemExt.rfl h

theorem set_memExt {m : Mem} {n p : Nat} (x : Option CStr)
    (h : n ≤ m.heap.cells.length) (hp : n ≤ p) :
    MemExt n m { m with heap := ⟨m.heap.cells.set p x⟩ } := by
  constructor
  · simpa [List.length_set] using h
  · intro q hq
    exact List.get?_set_ne x _ (by omega)

theorem write_memExt {m : Mem} {s : CStr} {n : Nat} (p : Ptr)
    (h : n ≤ m.heap.cells.length) (hp : n ≤ p) :
    MemExt n m { m with heap := m.heap.write p s } :=
  set_memExt (some s) h hp

theorem freeP_memExt {m : Mem} {n : Nat} {p : Ptr}
    (h : n ≤ m.heap.cells.length) (hp : n ≤ p) :
    MemExt n m (m.freeP p) :=
  set_memExt none h hp

theorem freeAll_memExt {n : Nat} : ∀ (ps : List Ptr) (m : Mem),
    n ≤ m.heap.cells.length → (∀ q ∈ ps, n ≤ q) →
    MemExt n m (m.freeAll ps)
  | [], m, h, _ => MemExt.rfl h
  | p :: ps, m, h, hps => by
    have h1 : MemExt n m (m.freeP p) :=
      freeP_memExt h (hps p (List.mem_cons_self p ps))
    have h2 : MemExt n (m.freeP p) ((m.freeP p).freeAll ps) :=
      freeAll_memExt ps (m.freeP p) h1.1 (fun q hq => hps q (List.mem_cons_of_mem p hq))
    exact h1.trans h2

theorem mem_append_singleton_ge {n q : Nat} {acc : List Ptr}
    (hacc : ∀ x ∈ acc, n ≤ x) (hq : n ≤ q) :
    ∀ x ∈ acc ++ [q], n ≤ x := by
  intro x hxm
  rcases List.mem_append.mp hxm with hin | hin
  · exact hacc x hin
  · rw [List.mem_singleton.mp hin]; exact hq

theorem defensiveLoop_memExt {oracle : Nat → Bool} {n : Nat} :
    ∀ (ps : List Ptr) (m : Mem) (acc : List Ptr) (m' : Mem) (res : Option (List Ptr)),
    defensiveLoop oracle m acc ps = .ok (m', res) →
    n ≤ m.heap.cells.length → (∀ q ∈ acc, n ≤ q) →
    MemExt n m m'
  | [], m, acc, m', res, heq, h, _ => by
    simp only [defensiveLoop, Except.ok.injEq, Prod.mk.injEq] at heq
    rw [← heq.1]
    exact MemExt.rfl h
  | p :: ps, m, acc, m', res, heq, h, hacc => by
    simp only [defensiveLoop] at heq
    cases hr : m.heap.read p with
    | none => simp only [hr] at heq; cases heq
    | some s =>
      simp only [hr] at heq
      have hta := tryAlloc_memExt oracle m s h
      cases htr : m.tryAlloc oracle s with
      | mk m2 qopt =>
        simp only [htr] at heq hta
        cases qopt with
        | some q =>
          exact hta.1.trans (defensiveLoop_memExt ps m2 (acc ++ [q]) m' res heq hta.1.1
            (mem_append_singleton_ge hacc (hta.2 q (Eq.refl _))))
        | none =>
          simp only [Except.ok.injEq, Prod.mk.injEq] at heq
          rw [← heq.1]
          exact hta.1.trans (freeAll_memExt acc m2 hta.1.1 hacc)

theorem copyLoopH_memExt {oracle : Nat → Bool} {n : Nat} :
    ∀ (ps : List Ptr) (m : Mem) (rules : List Rule) (acc : List Ptr)
      (m' : Mem) (rules' : List Rule) (acc' : List Ptr) (succ : Bool),
    copyLoopH oracle m rules acc ps = .ok (m', rules', acc', succ) →
    n ≤ m.heap.cells.length → (∀ q ∈ acc, n ≤ q) →
    MemExt n m m' ∧ ∀ q ∈ acc', n ≤ q
  | [], m, rules, acc, m', rules', acc', succ, heq, h, hacc => by
    simp only [copyLoopH, Except.ok.injEq, Prod.mk.injEq] at heq
    rw [← heq.1]
    exact ⟨MemExt.rfl h, by rw [← heq.2.2.1]; exact hacc⟩
  | p :: ps, m, rules, acc, m', rules', acc', succ, heq, h, hacc => by
    simp only [copyLoopH] at heq
    cases hr : m.heap.read p with
    | none => simp only [hr] at heq; cases heq
    | some var =>
      simp only [hr] at heq
      cases hscan : scanRules var rules with
      | mk b rulesb =>
        simp only [hscan] at heq
        cases b with
        | true =>
          exact copyLoopH_memExt ps m rulesb acc m' rules' acc' succ heq h hacc
        | false =>
          have hta := tryAlloc_memExt oracle m var h
          cases htr : m.tryAlloc oracle var with
          | mk m2 qopt =>
            simp only [htr] at heq hta
            cases qopt with
            | some q =>
              have := copyLoopH_memExt ps m2 rulesb (acc ++ [q]) m' rules' acc' succ heq
                hta.1.1 (mem_append_singleton_ge hacc (hta.2 q (Eq.refl _)))
              exact ⟨hta.1.trans this.1, this.2⟩
            | none =>
              simp only [Except.ok.injEq, Prod.mk.injEq] at heq
              rw [← heq.1]
              exact ⟨hta.1, by rw [← heq.2.2.1]; exact hacc⟩

theorem appendLoopH_memExt (oracle : Nat → Bool) {n : Nat} :
    ∀ (rules : List Rule) (m : Mem) (acc : List Ptr),
    n ≤ m.heap.cells.length → (∀ q ∈ acc, n ≤ q) →
    MemExt n m (appendLoopH oracle m acc rules).1 ∧
      ∀ q ∈ (appendLoopH oracle m acc rules).2.1, n ≤ q
  | [], m, acc, h, hacc => ⟨MemExt.rfl h, hacc⟩
  | r :: rs, m, acc, h, hacc => by
    simp only [appendLoopH]
    cases hv : r.value with
    | none => exact appendLoopH_memExt oracle rs m acc h hacc
    | some v =>
      have hta := tryAlloc_memExt oracle m (r.name ++ '=' :: v) h
      cases htr : m.tryAlloc oracle (r.name ++ '=' :: v) with
      | mk m2 qopt =>
        simp only [htr] at hta ⊢
        cases qopt with
        | some q =>
          have := appendLoopH_memExt oracle rs m2 (acc ++ [q]) hta.1.1
            (mem_append_singleton_ge hacc (hta.2 q (Eq.refl _)))
          exact ⟨hta.1.trans this.1, this.2⟩
        | none =>
          exact ⟨hta.1, hacc⟩

theorem memExt_of_heap_eq {n : Nat} {m m2 : Mem} (hh : m2.heap = m.heap)
    (h : n ≤ m.heap.cells.length) : MemExt n m m2 :=
  ⟨by rw [hh]; exact h, fun p _ => by rw [hh]⟩

theorem Heap.read_eq_some {h : Heap} {p : Ptr} {s : CStr} :
    h.read p = some s ↔ h.cells.get? p = some (some s) := by
  show (h.cells.get? p).getD none = some s ↔ _
  cases hg : h.cells.get? p with
  | none => simp
  | some o => cases o <;> simp

/-- Every successful (non-faulting) run of the heap builder — the returned
array may still be NULL after an allocation failure — leaves every buffer
that existed before the call untouched: same contents, not freed. -/
theorem create_heap_frame
    (oracle : Nat → Bool) (m : Mem) (rulesPtr : Option Ptr) (envp : Option (List Ptr))
    (m' : Mem) (res : Option (List Ptr))
    (heq : create_child_environment_heap oracle m rulesPtr envp = .ok (m', res)) :
    ∀ p s, m.heap.read p = some s → m'.heap.read p = some s := by
  suffices hext : MemExt m.heap.cells.length m m' by
    intro p s hr
    have hg := Heap.read_eq_some.mp hr
    have hlt : p < m.heap.cells.length := (List.get?_eq_some.mp hg).1
    exact Heap.read_eq_some.mpr ((hext.2 p hlt).trans hg)
  have hle : m.heap.cells.length ≤ m.heap.cells.length := Nat.le_refl _
  cases envp with
  | none =>
    cases rulesPtr <;> simp only [create_child_environment_heap] at heq <;> cases heq
  | some ps =>
    cases rulesPtr with
    | none =>
      simp only [create_child_environment_heap] at heq
      have harr : (m.tryAllocArr oracle).1.heap = m.heap := rfl
      have hm0 : MemExt m.heap.cells.length m (m.tryAllocArr oracle).1 :=
        memExt_of_heap_eq harr hle
      cases ha : (m.tryAllocArr oracle).2 with
      | true =>
        rw [ha, if_pos (Eq.refl _)] at heq
        exact hm0.trans (defensiveLoop_memExt ps _ [] m' res heq hm0.1 (by simp))
      | false =>
        rw [ha, if_neg (by simp)] at heq
        simp only [Except.ok.injEq, Prod.mk.injEq] at heq
        rw [← heq.1]
        exact hm0
    | some rp =>
      simp only [create_child_environment_heap] at heq
      cases hrd : m.heap.read rp with
      | none => simp only [hrd] at heq; cases heq
      | some rs =>
        simp only [hrd] at heq
        have hta := tryAlloc_memExt oracle m rs hle
        cases hstr : (m.tryAlloc oracle rs).2 with
        | none =>
          simp only [hstr, Except.ok.injEq, Prod.mk.injEq] at heq
          rw [← heq.1]
          exact hta.1
        | some scratch =>
          simp only [hstr] at heq
          have hscr : m.heap.cells.length ≤ scratch := hta.2 scratch hstr
          have hm1 : MemExt m.heap.cells.length m (m.tryAlloc oracle rs).1 := hta.1
          have hmA : MemExt m.heap.cells.length m
              ((m.tryAlloc oracle rs).1.tryAllocArr oracle).1 :=
            hm1.trans (memExt_of_heap_eq (Eq.refl _) hm1.1)
          cases ha : ((m.tryAlloc oracle rs).1.tryAllocArr oracle).2 with
          | false =>
            rw [ha] at heq
            simp only [Bool.not_false, if_true, Except.ok.injEq, Prod.mk.injEq] at heq
            rw [← heq.1]
            exact hmA.trans (freeP_memExt hmA.1 hscr)
          | true =>
            rw [ha] at heq
            simp only [Bool.not_true, Bool.false_eq_true, if_false] at heq
            set mA := ((m.tryAlloc oracle rs).1.tryAllocArr oracle).1 with hmAdef
            set mW : Mem := { mA with heap := mA.heap.write scratch (scratchAfterParse rs) }
              with hmWdef
            have hmW : MemExt m.heap.cells.length m mW :=
              hmA.trans (write_memExt scratch hmA.1 hscr)
            have hmB : MemExt m.heap.cells.length m (mW.tryAllocArr oracle).1 :=
              hmW.trans (memExt_of_heap_eq (Eq.refl _) hmW.1)
            cases hb : (mW.tryAllocArr oracle).2 with
            | false =>
              rw [hb] at heq
              simp only [Bool.not_false, if_true, Except.ok.injEq, Prod.mk.injEq] at heq
              rw [← heq.1]
              exact hmB.trans (freeP_memExt hmB.1 hscr)
            | true =>
              rw [hb] at heq
              simp only [Bool.not_true, Bool.false_eq_true, if_false] at heq
              cases hcl : copyLoopH oracle (mW.tryAllocArr oracle).1 (parse_rules rs)
                  [] ps with
              | error f => simp only [hcl] at heq; cases heq
              | ok out =>
                simp only [hcl] at heq
                obtain ⟨m3, rules3, acc3, succ3⟩ := out
                have hcopy := copyLoopH_memExt ps _ (parse_rules rs) [] m3 rules3
                  acc3 succ3 hcl hmB.1 (by simp)
                have hm3 : MemExt m.heap.cells.length m m3 := hmB.trans hcopy.1
                cases succ3 with
                | false =>
                  simp only [Bool.false_eq_true, if_false, Except.ok.injEq,
                    Prod.mk.injEq] at heq
                  rw [← heq.1]
                  exact (hm3.trans (freeP_memExt hm3.1 hscr)).trans
                    (freeAll_memExt acc3 _ (freeP_memExt hm3.1 hscr).1 hcopy.2)
                | true =>
                  simp only [if_true] at heq
                  have happ := appendLoopH_memExt oracle rules3 m3 acc3
                    hm3.1 hcopy.2
                  have hm4 : MemExt m.heap.cells.length m
                      (appendLoopH oracle m3 acc3 rules3).1 := hm3.trans happ.1
                  have hm5 : MemExt m.heap.cells.length m
                      ((appendLoopH oracle m3 acc3 rules3).1.freeP scratch) :=
                    hm4.trans (freeP_memExt hm4.1 hscr)
                  cases hsc : (appendLoopH oracle m3 acc3 rules3).2.2 with
                  | true =>
                    rw [hsc] at heq
                    simp only [if_true, Except.ok.injEq, Prod.mk.injEq] at heq
                    rw [← heq.1]
                    exact hm5
                  | false =>
                    rw [hsc] at heq
                    simp only [Bool.false_eq_true, if_false, Except.ok.injEq,
                      Prod.mk.injEq] at heq
                    rw [← heq.1]
                    exact hm5.trans (freeAll_memExt _ _ hm5.1 happ.2)

end ChildEnv

deriving instance DecidableEq for Except

namespace ChildEnv

/-! ## The claims -/

/-- C1: for every original environment and every rule source, the built
environment is exactly the original entries whose name matches no rule name,
unchanged and in original order, followed by one `name=value` entry per
set/overwrite rule in parse order, appended unconditionally; in particular
rule source `SECRET,PATH=/usr/bin` applied to
`[SECRET=shh, HOME=/home/u, PATH=/bin]` yields `[HOME=/home/u, PATH=/usr/bin]`. -/
theorem claim1_copied_then_appended :
    (∀ (rs : CStr) (env : EnvArr),
      create_child_environment (some rs) (some env) =
        .ok (specCopied (parse_rules rs) env ++ specAppended (parse_rules rs))) ∧
    create_child_environment (some "SECRET,PATH=/usr/bin".toList)
        (some ["SECRET=shh".toList, "HOME=/home/u".toList, "PATH=/bin".toList]) =
      .ok ["HOME=/home/u".toList, "PATH=/usr/bin".toList] :=
  ⟨create_spec_general, by decide⟩

/-- C2: contrary to the claim, the environment argument after the NULL
sentinel is never passed to the delegate.  `build_argv_from_va_list` leaves
the caller's `va_list` positioned at the unconsumed sentinel, so the
`va_arg` at line 303 reads the sentinel and `execle` delegates to the
`execve` wrapper with a NULL environment — for every number of variadic
arguments and every post-sentinel environment value: the run is identical
to one whose post-sentinel environment is NULL, and its delegate receives
`none`. -/
theorem claim2_execle_delegates_null_env (path arg : CStr) (va : List CStr)
    (envp : Option EnvArr) (buildRes : Option EnvArr) (real : Option (Int × Int))
    (s : Wstate) :
    (execleRun path arg va envp true buildRes real s =
      execveRun path (arg :: va) none buildRes real s) ∧
    (execleRun path arg va envp true buildRes real s =
      execleRun path arg va none true buildRes real s) :=
  ⟨rfl, rfl⟩

/-- C3: contrary to the claim, a NULL original-environment handle does not
terminate normally — both models show the entry-counting loop of the
defensive-copy branch dereferencing the NULL `envp` pointer (line 38),
whether or not a rule source is present. -/
theorem claim3_null_envp_faults :
    (∀ rulesSrc : Option CStr,
      create_child_environment rulesSrc none = .error .nullDeref) ∧
    (∀ (oracle : Nat → Bool) (m : Mem) (rulesPtr : Option Ptr),
      create_child_environment_heap oracle m rulesPtr none = .error .nullDeref) := by
  constructor
  · intro rulesSrc; cases rulesSrc <;> rfl
  · intro oracle m rulesPtr; cases rulesPtr <;> rfl

/-- C4: with rule source `FOO=a,FOO=b` and an original environment
containing `FOO=x`, the built environment contains no copy of `FOO=x`, and
ends with both appended entries `FOO=a` then `FOO=b` — duplicate rule names
are not deduplicated. -/
theorem claim4_duplicate_rule_names (env : EnvArr)
    (hmem : "FOO=x".toList ∈ env) :
    ∃ out, create_child_environment (some "FOO=a,FOO=b".toList) (some env) = .ok out ∧
      "FOO=x".toList ∉ out ∧
      out = specCopied (parse_rules "FOO=a,FOO=b".toList) env ++
        ["FOO=a".toList, "FOO=b".toList] := by
  refine ⟨specCopied (parse_rules "FOO=a,FOO=b".toList) env ++
    ["FOO=a".toList, "FOO=b".toList], ?_, ?_, Eq.refl _⟩
  · rw [create_spec_general]
    rw [show specAppended (parse_rules "FOO=a,FOO=b".toList) =
      ["FOO=a".toList, "FOO=b".toList] from by decide]
  · intro hin
    rcases List.mem_append.mp hin with hin | hin
    · exact absurd (List.mem_filter.mp hin).2 (by decide)
    · exact absurd hin (by decide)

/-- C4 witness: the duplicate-rule theorem at the concrete one-entry
environment `[FOO=x]`. -/
theorem claim4_duplicate_rule_names_witness :
    ("FOO=x".toList ∈ (["FOO=x".toList] : EnvArr)) ∧
    ∃ out, create_child_environment (some "FOO=a,FOO=b".toList)
        (some ["FOO=x".toList]) = .ok out ∧
      "FOO=x".toList ∉ out ∧
      out = specCopied (parse_rules "FOO=a,FOO=b".toList) ["FOO=x".toList] ++
        ["FOO=a".toList, "FOO=b".toList] :=
  ⟨by decide, claim4_duplicate_rule_names ["FOO=x".toList] (by decide)⟩

/-- C5: for every intercepted exec-family entry point, when
`create_child_environment` returns NULL the wrapper returns `-1` with
`errno = ENOMEM` and never invokes the genuine implementation. -/
theorem claim5_fail_closed_on_build_failure (path file arg : CStr)
    (argv va : List CStr) (envp : Option EnvArr) (real : Option (Int × Int))
    (s : Wstate) :
    ((execveRun path argv envp none real s).outcome = .ret (-1) ∧
      (execveRun path argv envp none real s).errno = ENOMEM ∧
      (execveRun path argv envp none real s).invokesReal = false) ∧
    ((execvpeRun file argv envp none real s).outcome = .ret (-1) ∧
      (execvpeRun file argv envp none real s).errno = ENOMEM ∧
      (execvpeRun file argv envp none real s).invokesReal = false) ∧
    ((execvpRun file argv none real s).outcome = .ret (-1) ∧
      (execvpRun file argv none real s).errno = ENOMEM ∧
      (execvpRun file argv none real s).invokesReal = false) ∧
    ((execvRun path argv none real s).outcome = .ret (-1) ∧
      (execvRun path argv none real s).errno = ENOMEM ∧
      (execvRun path argv none real s).invokesReal = false) ∧
    ((execlRun path arg va true none real s).outcome = .ret (-1) ∧
      (execlRun path arg va true none real s).errno = ENOMEM ∧
      (execlRun path arg va true none real s).invokesReal = false) ∧
    ((execlpRun file arg va true none real s).outcome = .ret (-1) ∧
      (execlpRun file arg va true none real s).errno = ENOMEM ∧
      (execlpRun file arg va true none real s).invokesReal = false) ∧
    ((execleRun path arg va envp true none real s).outcome = .ret (-1) ∧
      (execleRun path arg va envp true none real s).errno = ENOMEM ∧
      (execleRun path arg va envp true none real s).invokesReal = false) :=
  ⟨⟨rfl, rfl, rfl⟩, ⟨rfl, rfl, rfl⟩, ⟨rfl, rfl, rfl⟩, ⟨rfl, rfl, rfl⟩,
   ⟨rfl, rfl, rfl⟩, ⟨rfl, rfl, rfl⟩, ⟨rfl, rfl, rfl⟩⟩

/-- C6: with no rule source configured and the original environment present,
the built environment is entry-for-entry equal to the original. -/
theorem claim6_defensive_copy_equivalence (env : EnvArr) :
    create_child_environment none (some env) = .ok env := rfl

/-- C7: for the ambient-environment entry points `execvp` and `execv`, when
the genuine implementation returns, the ambient `environ` is restored to its
pre-call value before the rewritten environment is released (the restoring
assignment precedes the release in the event trace), and the genuine
implementation's return value is propagated unchanged. -/
theorem claim7_restore_before_release (file path : CStr) (argv : List CStr)
    (newEnvp : EnvArr) (r e : Int) (s : Wstate) :
    (execvpRun file argv (some newEnvp) (some (r, e)) s =
      { events := [.callBuild (some s.environ), .assignEnviron newEnvp,
                   .callReal file argv none, .assignEnviron s.environ,
                   .releaseEnv newEnvp],
        outcome := .ret r, errno := e, environ := s.environ }) ∧
    (execvRun path argv (some newEnvp) (some (r, e)) s =
      { events := [.callBuild (some s.environ), .assignEnviron newEnvp,
                   .callReal path argv none, .assignEnviron s.environ,
                   .releaseEnv newEnvp],
        outcome := .ret r, errno := e, environ := s.environ }) :=
  ⟨rfl, rfl⟩

/-- C8: rule parsing splits the source on commas, skips every empty token,
divides each non-empty token at its first `=` into name and value (a token
without `=` becoming an unset rule for the whole token), and produces the
rules in left-to-right token order. -/
theorem claim8_parsing_matches_spec (s : CStr) : parse_rules s = specParse s :=
  parse_rules_eq_specParse s

/-- C9: every non-faulting run of the builder — on the success path and on
every allocation-failure path, for every allocation oracle — leaves every
buffer that existed before the call (in particular the original environment
entries and the rule-source string) with unchanged contents: all mutation
and freeing happens on freshly allocated scratch copies. -/
theorem claim9_no_mutation_of_originals (oracle : Nat → Bool) (m : Mem)
    (rulesPtr : Option Ptr) (envp : Option (List Ptr)) (m' : Mem)
    (res : Option (List Ptr))
    (heq : create_child_environment_heap oracle m rulesPtr envp = .ok (m', res))
    (p : Ptr) (s : CStr) (hr : m.heap.read p = some s) :
    m'.heap.read p = some s :=
  create_heap_frame oracle m rulesPtr envp m' res heq p s hr

/-- C9 witness: a concrete full build (rule source `SECRET,PATH=/usr/bin` in
buffer 1, one original entry `A=1` in buffer 0) leaves buffer 0 unchanged. -/
theorem claim9_no_mutation_of_originals_witness :
    (create_child_environment_heap (fun _ => true)
        ⟨⟨[some "A=1".toList, some "SECRET,PATH=/usr/bin".toList]⟩, 0⟩
        (some 1) (some [0]) =
      .ok (⟨⟨[some "A=1".toList, some "SECRET,PATH=/usr/bin".toList, none,
              some "A=1".toList, some "PATH=/usr/bin".toList]⟩, 5⟩,
           some [3, 4])) ∧
    (⟨⟨[some "A=1".toList, some "SECRET,PATH=/usr/bin".toList]⟩, 0⟩ : Mem).heap.read 0 =
      some "A=1".toList ∧
    (⟨⟨[some "A=1".toList, some "SECRET,PATH=/usr/bin".toList, none,
        some "A=1".toList, some "PATH=/usr/bin".toList]⟩, 5⟩ : Mem).heap.read 0 =
      some "A=1".toList :=
  ⟨by decide, by decide,
    claim9_no_mutation_of_originals (fun _ => true)
      ⟨⟨[some "A=1".toList, some "SECRET,PATH=/usr/bin".toList]⟩, 0⟩
      (some 1) (some [0])
      ⟨⟨[some "A=1".toList, some "SECRET,PATH=/usr/bin".toList, none,
         some "A=1".toList, some "PATH=/usr/bin".toList]⟩, 5⟩
      (some [3, 4]) (by decide) 0 "A=1".toList (by decide)⟩

/-- C10: for each variadic entry point, when materializing the argv array
fails the call returns `-1` with `errno = ENOMEM`, and neither the
environment builder nor any genuine implementation is invoked. -/
theorem claim10_variadic_alloc_fail_closed (path file arg : CStr)
    (va : List CStr) (envp : Option EnvArr) (buildRes : Option EnvArr)
    (real : Option (Int × Int)) (s : Wstate) :
    (execlRun path arg va false buildRes real s =
      { events := [], outcome := .ret (-1), errno := ENOMEM,
        environ := s.environ }) ∧
    (execlpRun file arg va false buildRes real s =
      { events := [], outcome := .ret (-1), errno := ENOMEM,
        environ := s.environ }) ∧
    (execleRun path arg va envp false buildRes real s =
      { events := [], outcome := .ret (-1), errno := ENOMEM,
        environ := s.environ }) ∧
    (execlRun path arg va false buildRes real s).invokesBuild = false ∧
    (execlRun path arg va false buildRes real s).invokesReal = false ∧
    (execlpRun file arg va false buildRes real s).invokesBuild = false ∧
    (execlpRun file arg va false buildRes real s).invokesReal = false ∧
    (execleRun path arg va envp false buildRes real s).invokesBuild = false ∧
    (execleRun path arg va envp false buildRes real s).invokesReal = false :=
  ⟨rfl, rfl, rfl, rfl, rfl, rfl, rfl, rfl, rfl⟩

end ChildEnv

